import Mathlib

/-!
Verification of the content-collection build pipeline of the `b4lisong/blog`
repository (an Astro static blog).

The pipeline's source lives in the repository's documents:
  - `src/content/config.ts` (zod schema of the `blog` collection),
  - `src/pages/index.astro` (home page, most-recent-3 view),
  - `src/pages/blog/index.astro` (blog listing page),
  - `src/pages/blog/[...slug].astro` (detail routes via `getStaticPaths`),
  - `src/layouts/BaseLayout.astro`, `src/layouts/BlogPost.astro`,
  - `flake.nix` (the `blog new-post` script: slug pipeline and file write).

Modelling conventions:
  - A calendar date is a (year, month, day) triple; `CalDate.valueOf` is an
    order-embedding stand-in for JS `Date.prototype.valueOf` (milliseconds).
    The code only ever uses the SIGN of differences of `valueOf`, so any
    order-embedding of dates into `Int` is a faithful model.
  - JS `Array.prototype.sort` is, per ECMAScript, an in-place STABLE sort;
    the unique stable result is modelled by `List.insertionSort`.  In-place
    mutation is modelled by explicit state passing: a page's query returns
    the pair (array state after the statement, value of the expression).
  - `toLocaleDateString` is modelled by a fixed deterministic rendering of
    the date; the claims under check never inspect the locale format itself.
  - zod validation (`z.object` over the six schema keys) checks every key
    and reports the names of all offending fields.
-/

/-- A calendar date, as produced by YAML frontmatter parsing (`pubDate: 2025-10-09`). -/
structure CalDate where
  year : Nat
  month : Nat
  day : Nat
deriving DecidableEq, Repr

/-- Order-embedding stand-in for JS `Date.prototype.valueOf` (see module comment). -/
def CalDate.valueOf (d : CalDate) : Int :=
  (d.year : Int) * 10000 + (d.month : Int) * 100 + (d.day : Int)

/-- The validated frontmatter data of one entry, per the zod schema in
`src/content/config.ts`: `title`, `description`, `pubDate` required;
`updatedDate`, `heroImage`, `tags` optional (absent when missing). -/
structure EntryData where
  title : String
  description : String
  pubDate : CalDate
  updatedDate : Option CalDate
  heroImage : Option String
  tags : Option (List String)
deriving DecidableEq, Repr

/-- One loaded collection entry (Astro `CollectionEntry<'blog'>`):
a slug, the validated data, and the markdown body. -/
structure Entry where
  slug : String
  data : EntryData
  body : String
deriving DecidableEq, Repr

/-- The ordering used at every sort site:
`(a, b) => b.data.pubDate.valueOf() - a.data.pubDate.valueOf()`.
`a` may precede `b` exactly when the comparator is `≤ 0`. -/
def pubDesc (a b : Entry) : Prop :=
  b.data.pubDate.valueOf ≤ a.data.pubDate.valueOf

instance : DecidableRel pubDesc := fun a b =>
  inferInstanceAs (Decidable (b.data.pubDate.valueOf ≤ a.data.pubDate.valueOf))

instance : IsTotal Entry pubDesc :=
  ⟨fun a b => le_total b.data.pubDate.valueOf a.data.pubDate.valueOf⟩

instance : IsTrans Entry pubDesc :=
  ⟨fun _ _ _ h₁ h₂ => le_trans h₂ h₁⟩

/-- `posts.sort((a, b) => b.data.pubDate.valueOf() - a.data.pubDate.valueOf())`:
the unique stable sort along `pubDesc`. -/
def sortPosts (posts : List Entry) : List Entry :=
  posts.insertionSort pubDesc

/-- One element of the array returned by `getStaticPaths` in
`src/pages/blog/[...slug].astro`: `{ params: { slug: post.slug }, props: post }`. -/
structure StaticPath where
  slug : String
  props : Entry
deriving DecidableEq, Repr

/-- `getStaticPaths` of `src/pages/blog/[...slug].astro`:
`posts.map((post) => ({ params: { slug: post.slug }, props: post }))`. -/
def getStaticPaths (posts : List Entry) : List StaticPath :=
  posts.map fun post => ⟨post.slug, post⟩

/-- The output path of a detail route produced from `src/pages/blog/[...slug].astro`
(the links rendered by the listing pages use the same shape). -/
def detailRoutePath (p : StaticPath) : String :=
  "/blog/" ++ p.slug ++ "/"

/-- Home page (`src/pages/index.astro`) query:
`const sortedPosts = posts.sort(cmp).slice(0, 3);`.
`Array.prototype.sort` mutates `posts` in place and returns the same array, so
the returned pair is (state of `posts` after the statement, `sortedPosts`). -/
def homePageQuery (posts : List Entry) : List Entry × List Entry :=
  (sortPosts posts, (sortPosts posts).take 3)

/-- Blog listing (`src/pages/blog/index.astro`) query:
`const sortedPosts = posts.sort(cmp);` — in-place sort, alias returned. -/
def blogIndexQuery (posts : List Entry) : List Entry × List Entry :=
  (sortPosts posts, sortPosts posts)

/-- Detail route (`src/pages/blog/[...slug].astro`) query:
`posts.map(...)` does not mutate the array. -/
def detailRoutesQuery (posts : List Entry) : List Entry × List StaticPath :=
  (posts, getStaticPaths posts)

/-- Deterministic rendering of a date (model of `toLocaleDateString`, see module comment). -/
def renderDate (d : CalDate) : String :=
  toString d.year ++ "-" ++ toString d.month ++ "-" ++ toString d.day

/-- Tag spans rendered by both listing pages and the detail layout. -/
def renderTags (tags : List String) : String :=
  String.join (tags.map fun t => "<span class=\"tag\">" ++ t ++ "</span>")

/-- One `<article class="post-item">` of the blog listing
(`src/pages/blog/index.astro`); the tags block is guarded by
`post.data.tags && (...)` (present iff `tags` is defined). -/
def postItem (post : Entry) : String :=
  "<article class=\"post-item\"><a href=\"/blog/" ++ post.slug ++ "/\"><h2>" ++
    post.data.title ++ "</h2><p>" ++ post.data.description ++ "</p><time>" ++
    renderDate post.data.pubDate ++ "</time>" ++
    (match post.data.tags with
     | some ts => "<div class=\"tags\">" ++ renderTags ts ++ "</div>"
     | none => "") ++
    "</a></article>"

/-- The designated empty-state message of the blog listing page. -/
def emptyStateMessage : String := "No posts published yet."

/-- Body of `src/pages/blog/index.astro`:
`sortedPosts.length > 0 ? (list of post items) : (<p>No posts published yet.</p>)`. -/
def blogIndexBody (posts : List Entry) : String :=
  let sortedPosts := sortPosts posts
  if sortedPosts.length > 0 then
    "<div class=\"posts-list\">" ++ String.join (sortedPosts.map postItem) ++ "</div>"
  else
    "<p>" ++ emptyStateMessage ++ "</p>"

/-- `src/layouts/BaseLayout.astro`: shared page shell wrapping the slot content. -/
def baseLayout (title bodyHtml : String) : String :=
  "<html><head><title>" ++ title ++ "</title></head><body>" ++ bodyHtml ++ "</body></html>"

/-- The full blog listing page. -/
def blogIndexPage (posts : List Entry) : String :=
  baseLayout ("All Blog Posts") (blogIndexBody posts)

/-- One `<article class="post-card">` of the home page's recent-posts grid. -/
def postCard (post : Entry) : String :=
  "<article class=\"post-card\"><a href=\"/blog/" ++ post.slug ++ "/\"><h3>" ++
    post.data.title ++ "</h3><p>" ++ post.data.description ++ "</p><time>" ++
    renderDate post.data.pubDate ++ "</time></a></article>"

/-- The home page (`src/pages/index.astro`): latest three posts or its own empty message. -/
def homePage (posts : List Entry) : String :=
  let sortedPosts := (homePageQuery posts).2
  baseLayout ("Welcome to My Blog")
    (if sortedPosts.length > 0 then
      "<div class=\"posts-grid\">" ++ String.join (sortedPosts.map postCard) ++ "</div>"
     else
      "<p>No posts yet. Check back soon!</p>")

/-- Tags block of `src/layouts/BlogPost.astro`, guarded by `tags && tags.length > 0`. -/
def renderTagsBlock (tags : Option (List String)) : String :=
  match tags with
  | some ts => if ts.length > 0 then "<div class=\"tags\">" ++ renderTags ts ++ "</div>" else ""
  | none => ""

/-- A detail page: `src/layouts/BlogPost.astro` (header with dates and tags)
wrapped in the base layout, with the rendered body in the slot. -/
def detailPage (e : Entry) : String :=
  baseLayout e.data.title
    ("<article><h1>" ++ e.data.title ++ "</h1><time>" ++ renderDate e.data.pubDate ++
      "</time>" ++
      (match e.data.updatedDate with
       | some u => "<span class=\"updated\">Updated: " ++ renderDate u ++ "</span>"
       | none => "") ++
      renderTagsBlock e.data.tags ++
      "<div class=\"post-content\">" ++ e.body ++ "</div></article>")

/-- Concrete entry used in claim instances: published 2025-09-15. -/
def eSep15 : Entry :=
  ⟨"creating-this-blog-part-1",
   ⟨"Creating This Blog - Part 1", "How to build an Astro blog", ⟨2025, 9, 15⟩,
    none, none, some ["astro", "nix"]⟩,
   "body15"⟩

/-- Concrete entry used in claim instances: published 2025-09-26. -/
def eSep26 : Entry :=
  ⟨"optimizing-a-nixos-based-nas",
   ⟨"Optimizing a NixOS-based NAS", "NAS tuning", ⟨2025, 9, 26⟩, none, none, none⟩,
   "body26"⟩

/-- Two concrete entries sharing one publish date, with slugs out of ascending
order in the input: slug "b" first, slug "a" second. -/
def eTieB : Entry := ⟨"b", ⟨"B", "descB", ⟨2025, 1, 1⟩, none, none, none⟩, "bodyB"⟩

/-- Second tied entry (slug "a"), same publish date as `eTieB`. -/
def eTieA : Entry := ⟨"a", ⟨"A", "descA", ⟨2025, 1, 1⟩, none, none, none⟩, "bodyA"⟩

/-- Claim C1: for every set of entries, the route generator produces exactly one
detail route per entry — the count of detail routes equals the count of entries,
the i-th route binds the i-th entry as its props, and each route's path is
`/<collection>/<slug>/` (collection `blog`). -/
theorem detail_routes_one_per_entry (posts : List Entry) :
    (getStaticPaths posts).length = posts.length ∧
    (getStaticPaths posts).map StaticPath.props = posts ∧
    (getStaticPaths posts).map detailRoutePath =
      posts.map (fun p => "/blog/" ++ p.slug ++ "/") := by
  refine ⟨?_, ?_, ?_⟩
  · simp [getStaticPaths]
  · induction posts with
    | nil => rfl
    | cons p ps ih => simpa [getStaticPaths] using ih
  · simp [getStaticPaths, detailRoutePath]

/-- Claim C8: on an empty collection the listing page renders (totally, without
error) and displays the designated empty-state message, and the route generator
produces zero detail routes. -/
theorem empty_collection_listing :
    blogIndexPage [] = baseLayout ("All Blog Posts") ("<p>" ++ emptyStateMessage ++ "</p>") ∧
    getStaticPaths [] = [] := by
  constructor <;> rfl

/-- The listing filter selecting the entries of one publish date. -/
def byDate (d : CalDate) (e : Entry) : Bool := decide (e.data.pubDate = d)

/-- Inserting an entry of a different date does not change a date's filtered view. -/
theorem filter_byDate_orderedInsert_of_ne (x : Entry) (l : List Entry) (d : CalDate)
    (hx : ¬ x.data.pubDate = d) :
    (l.orderedInsert pubDesc x).filter (byDate d) = l.filter (byDate d) := by
  induction l with
  | nil => simp [byDate, hx]
  | cons y ys ih =>
    by_cases h : pubDesc x y
    · simp [List.orderedInsert, h, List.filter_cons, byDate, hx]
    · simp only [List.orderedInsert, if_neg h, List.filter_cons]
      rw [ih]

/-- Inserting an entry of date `d` prepends it to the date-`d` filtered view:
every element it is inserted past compares strictly larger, hence has a
different date. -/
theorem filter_byDate_orderedInsert_of_eq (x : Entry) (l : List Entry) (d : CalDate)
    (hx : x.data.pubDate = d) :
    (l.orderedInsert pubDesc x).filter (byDate d) = x :: l.filter (byDate d) := by
  induction l with
  | nil => simp [byDate, hx]
  | cons y ys ih =>
    by_cases h : pubDesc x y
    · simp [List.orderedInsert, h, List.filter_cons, byDate, hx]
    · have hy : ¬ y.data.pubDate = d := by
        intro hyd
        exact h (le_of_eq (by rw [hyd, hx]))
      simp only [List.orderedInsert, if_neg h, List.filter_cons]
      simp only [byDate, hy, decide_eq_true_eq, if_neg hy]
      exact ih

/-- Stability of the listing sort: for every publish date, the entries of that
date appear in the sorted view in their original input order. -/
theorem filter_byDate_sortPosts (posts : List Entry) (d : CalDate) :
    (sortPosts posts).filter (byDate d) = posts.filter (byDate d) := by
  induction posts with
  | nil => rfl
  | cons p ps ih =>
    simp only [sortPosts] at ih
    show ((ps.insertionSort pubDesc).orderedInsert pubDesc p).filter (byDate d) = _
    by_cases hp : p.data.pubDate = d
    · rw [filter_byDate_orderedInsert_of_eq _ _ _ hp, ih, List.filter_cons]
      simp [byDate, hp]
    · rw [filter_byDate_orderedInsert_of_ne _ _ _ hp, ih, List.filter_cons]
      simp [byDate, hp]

/-- Claim C2 (corrected part): on the concrete tied input the code keeps the
input order — slug "b" stays before slug "a" — so ties are NOT ordered by slug
ascending: `Array.prototype.sort` is stable and the comparator returns 0 on
equal dates. -/
theorem listing_tie_not_slug_ascending :
    eTieB.data.pubDate = eTieA.data.pubDate ∧
    eTieB.slug = "b" ∧ eTieA.slug = "a" ∧
    sortPosts [eTieB, eTieA] ≠ [eTieA, eTieB] ∧
    sortPosts [eTieB, eTieA] = [eTieB, eTieA] := by
  refine ⟨rfl, rfl, rfl, ?_, ?_⟩ <;> decide

/-- Claim C2 (amended): the listing view is sorted by publish date descending;
entries sharing an identical publish date keep their original input order
(stable sort); and for the two concrete entries dated 2025-09-26 and
2025-09-15, the former appears before the latter. -/
theorem listing_sorted_desc_stable (posts : List Entry) (d : CalDate) :
    List.Sorted pubDesc (sortPosts posts) ∧
    (sortPosts posts).filter (byDate d) = posts.filter (byDate d) ∧
    sortPosts [eSep15, eSep26] = [eSep26, eSep15] :=
  ⟨List.sorted_insertionSort pubDesc posts, filter_byDate_sortPosts posts d, by decide⟩

/-- Claim C7 (corrected part): the home-page query is not a pure read-only
view — after `posts.sort(cmp).slice(0, 3)` the underlying `posts` array is in
a different order than before the query. -/
theorem home_query_mutates_collection :
    (homePageQuery [eSep15, eSep26]).1 ≠ [eSep15, eSep26] := by
  decide

/-- Claim C7 (amended): every view query preserves the underlying collection's
entries as a multiset (a permutation); the sort-based queries of the home page
and blog index reorder the array in place, while the detail-route query leaves
it untouched. -/
theorem queries_preserve_entries (posts : List Entry) :
    ((homePageQuery posts).1).Perm posts ∧
    ((blogIndexQuery posts).1).Perm posts ∧
    (detailRoutesQuery posts).1 = posts :=
  ⟨List.perm_insertionSort pubDesc posts, List.perm_insertionSort pubDesc posts, rfl⟩

/-- A frontmatter value as produced by YAML parsing: a string, a date
(YAML turns `2025-10-09` into a `Date`), or a list of values. -/
inductive FVal where
  | str : String → FVal
  | date : CalDate → FVal
  | list : List FVal → FVal

/-- A raw frontmatter mapping over the six keys of the schema in
`src/content/config.ts`; a missing key is `none` (JS `undefined`). -/
structure Frontmatter where
  title : Option FVal := none
  description : Option FVal := none
  pubDate : Option FVal := none
  updatedDate : Option FVal := none
  heroImage : Option FVal := none
  tags : Option FVal := none

/-- `z.string()`: accepts exactly a present string value (empty strings included). -/
def checkStr : Option FVal → Option String
  | some (FVal.str s) => some s
  | _ => none

/-- `z.date()`: accepts exactly a present date value. -/
def checkDate : Option FVal → Option CalDate
  | some (FVal.date d) => some d
  | _ => none

/-- `z.date().optional()`: missing key yields `undefined` (`none`). -/
def checkOptDate : Option FVal → Option (Option CalDate)
  | none => some none
  | some (FVal.date d) => some (some d)
  | some _ => none

/-- `z.string().optional()`. -/
def checkOptStr : Option FVal → Option (Option String)
  | none => some none
  | some (FVal.str s) => some (some s)
  | some _ => none

/-- Element check of `z.array(z.string())`. -/
def checkStrList : List FVal → Option (List String)
  | [] => some []
  | FVal.str s :: rest => (checkStrList rest).map (s :: ·)
  | _ => none

/-- `z.array(z.string()).optional()`. -/
def checkOptTags : Option FVal → Option (Option (List String))
  | none => some none
  | some (FVal.list vs) => (checkStrList vs).map some
  | some _ => none

/-- The names of all offending fields of a frontmatter mapping, in schema key
order (zod collects one issue per failing key). -/
def fieldErrors (fm : Frontmatter) : List String :=
  (if (checkStr fm.title).isNone then ["title"] else []) ++
  (if (checkStr fm.description).isNone then ["description"] else []) ++
  (if (checkDate fm.pubDate).isNone then ["pubDate"] else []) ++
  (if (checkOptDate fm.updatedDate).isNone then ["updatedDate"] else []) ++
  (if (checkOptStr fm.heroImage).isNone then ["heroImage"] else []) ++
  (if (checkOptTags fm.tags).isNone then ["tags"] else [])

/-- The schema validator of `src/content/config.ts`: `z.object({ title, description,
pubDate, updatedDate?, heroImage?, tags? })` — a typed result when every key
validates, otherwise the list of offending field names. -/
def validateBlog (fm : Frontmatter) : Except (List String) EntryData :=
  match checkStr fm.title, checkStr fm.description, checkDate fm.pubDate,
        checkOptDate fm.updatedDate, checkOptStr fm.heroImage, checkOptTags fm.tags with
  | some t, some de, some p, some u, some h, some tg => Except.ok ⟨t, de, p, u, h, tg⟩
  | _, _, _, _, _, _ => Except.error (fieldErrors fm)

theorem checkStr_isSome_iff (v : Option FVal) :
    (checkStr v).isSome = true ↔ ∃ s, v = some (FVal.str s) := by
  cases v with
  | none => simp [checkStr]
  | some fv => cases fv <;> simp [checkStr]

theorem checkDate_isSome_iff (v : Option FVal) :
    (checkDate v).isSome = true ↔ ∃ d, v = some (FVal.date d) := by
  cases v with
  | none => simp [checkDate]
  | some fv => cases fv <;> simp [checkDate]

theorem checkOptDate_isSome_iff (v : Option FVal) :
    (checkOptDate v).isSome = true ↔ (v = none ∨ ∃ d, v = some (FVal.date d)) := by
  cases v with
  | none => simp [checkOptDate]
  | some fv => cases fv <;> simp [checkOptDate]

theorem checkOptStr_isSome_iff (v : Option FVal) :
    (checkOptStr v).isSome = true ↔ (v = none ∨ ∃ s, v = some (FVal.str s)) := by
  cases v with
  | none => simp [checkOptStr]
  | some fv => cases fv <;> simp [checkOptStr]

theorem checkStrList_isSome_iff (vs : List FVal) :
    (checkStrList vs).isSome = true ↔ ∃ ss : List String, vs = ss.map FVal.str := by
  induction vs with
  | nil =>
    constructor
    · intro _
      exact ⟨[], rfl⟩
    · intro _
      simp [checkStrList]
  | cons v rest ih =>
    cases v with
    | str s =>
      simp only [checkStrList, Option.isSome_map']
      rw [ih]
      constructor
      · rintro ⟨ss, rfl⟩
        exact ⟨s :: ss, rfl⟩
      · rintro ⟨ss, h⟩
        cases ss with
        | nil => simp at h
        | cons a as =>
          simp only [List.map, List.cons.injEq, FVal.str.injEq] at h
          exact ⟨as, h.2⟩
    | date d =>
      simp only [checkStrList]
      constructor
      · intro h
        simp at h
      · rintro ⟨ss, h⟩
        cases ss with
        | nil => simp at h
        | cons a as => simp [List.map] at h
    | list l =>
      simp only [checkStrList]
      constructor
      · intro h
        simp at h
      · rintro ⟨ss, h⟩
        cases ss with
        | nil => simp at h
        | cons a as => simp [List.map] at h

theorem checkOptTags_isSome_iff (v : Option FVal) :
    (checkOptTags v).isSome = true ↔
      (v = none ∨ ∃ ss : List String, v = some (FVal.list (ss.map FVal.str))) := by
  cases v with
  | none => simp [checkOptTags]
  | some fv =>
    cases fv with
    | str s => simp [checkOptTags]
    | date d => simp [checkOptTags]
    | list vs =>
      simp only [checkOptTags, Option.isSome_map']
      rw [checkStrList_isSome_iff]
      constructor
      · rintro ⟨ss, rfl⟩
        exact Or.inr ⟨ss, rfl⟩
      · rintro (h | ⟨ss, h⟩)
        · exact absurd h (by simp)
        · simp only [Option.some.injEq, FVal.list.injEq] at h
          exact ⟨ss, h⟩

/-- The validator succeeds exactly when all six key checks succeed. -/
theorem validateBlog_isOk_iff (fm : Frontmatter) :
    (validateBlog fm).isOk = true ↔
      ((checkStr fm.title).isSome = true ∧ (checkStr fm.description).isSome = true ∧
       (checkDate fm.pubDate).isSome = true ∧ (checkOptDate fm.updatedDate).isSome = true ∧
       (checkOptStr fm.heroImage).isSome = true ∧ (checkOptTags fm.tags).isSome = true) := by
  rcases h1 : checkStr fm.title with _ | t <;>
  rcases h2 : checkStr fm.description with _ | de <;>
  rcases h3 : checkDate fm.pubDate with _ | p <;>
  rcases h4 : checkOptDate fm.updatedDate with _ | u <;>
  rcases h5 : checkOptStr fm.heroImage with _ | hi <;>
  rcases h6 : checkOptTags fm.tags with _ | tg <;>
    simp [validateBlog, Except.isOk, Except.toBool, h1, h2, h3, h4, h5, h6]

/-- Claim C3 (amended): the validator returns a typed result exactly when `title`
is a string (possibly empty), `description` is a string, `pubDate` is a date,
and each optional key, when present, is well-typed (`updatedDate` a date,
`heroImage` a string, `tags` an array of strings); and on success with the
optional keys missing, the result has `updatedDate`, `heroImage` and `tags`
all absent. -/
theorem schema_validator_exact (fm : Frontmatter) :
    ((validateBlog fm).isOk = true ↔
      ((∃ s, fm.title = some (FVal.str s)) ∧
       (∃ s, fm.description = some (FVal.str s)) ∧
       (∃ d, fm.pubDate = some (FVal.date d)) ∧
       (fm.updatedDate = none ∨ ∃ d, fm.updatedDate = some (FVal.date d)) ∧
       (fm.heroImage = none ∨ ∃ s, fm.heroImage = some (FVal.str s)) ∧
       (fm.tags = none ∨ ∃ ss : List String, fm.tags = some (FVal.list (ss.map FVal.str))))) ∧
    (∀ d, fm.updatedDate = none → fm.heroImage = none → fm.tags = none →
      validateBlog fm = Except.ok d →
      d.updatedDate = none ∧ d.heroImage = none ∧ d.tags = none) := by
  constructor
  · rw [validateBlog_isOk_iff, checkStr_isSome_iff, checkStr_isSome_iff,
      checkDate_isSome_iff, checkOptDate_isSome_iff, checkOptStr_isSome_iff,
      checkOptTags_isSome_iff]
  · intro d hu hh ht hok
    rcases h1 : checkStr fm.title with _ | t <;>
    rcases h2 : checkStr fm.description with _ | de <;>
    rcases h3 : checkDate fm.pubDate with _ | p <;>
      simp only [validateBlog, h1, h2, h3, hu, hh, ht, checkOptDate, checkOptStr,
        checkOptTags, reduceCtorEq] at hok
    rw [Except.ok.injEq] at hok
    subst hok
    exact ⟨rfl, rfl, rfl⟩

/-- A fully well-formed frontmatter with every optional key missing. -/
def fmWellFormed : Frontmatter :=
  { title := some (FVal.str ("A post")),
    description := some (FVal.str ("About something")),
    pubDate := some (FVal.date ⟨2025, 9, 26⟩) }

/-- Witness for `schema_validator_exact` at a concrete well-formed frontmatter:
the validator succeeds and the concrete result's optional fields are absent. -/
theorem schema_validator_exact_witness :
    (validateBlog fmWellFormed).isOk = true ∧
    (⟨"A post", "About something", ⟨2025, 9, 26⟩, none, none, none⟩ : EntryData).updatedDate = none ∧
    (⟨"A post", "About something", ⟨2025, 9, 26⟩, none, none, none⟩ : EntryData).heroImage = none ∧
    (⟨"A post", "About something", ⟨2025, 9, 26⟩, none, none, none⟩ : EntryData).tags = none := by
  have h := schema_validator_exact fmWellFormed
  exact ⟨h.1.mpr ⟨⟨"A post", rfl⟩, ⟨"About something", rfl⟩, ⟨⟨2025, 9, 26⟩, rfl⟩,
      Or.inl rfl, Or.inl rfl, Or.inl rfl⟩,
    h.2 ⟨"A post", "About something", ⟨2025, 9, 26⟩, none, none, none⟩ rfl rfl rfl rfl⟩

/-- A frontmatter whose `title` is the EMPTY string, with well-typed
`description` and `pubDate` and all optional keys missing. -/
def fmEmptyTitle : Frontmatter :=
  { title := some (FVal.str ("")),
    description := some (FVal.str ("desc")),
    pubDate := some (FVal.date ⟨2025, 9, 26⟩) }

/-- Claim C3 (counterexample): with an empty-string `title` the validator
SUCCEEDS — `z.string()` does not require non-emptiness — and the resulting
entry's `tags` is absent (`none`), not the empty set (`some []`). Both
contradict the claim, which demands failure for empty titles and an
empty-set default for `tags`. -/
theorem schema_validator_claim_false :
    validateBlog fmEmptyTitle =
      Except.ok ⟨"", "desc", ⟨2025, 9, 26⟩, none, none, none⟩ ∧
    (validateBlog fmEmptyTitle).isOk = true ∧
    (none : Option (List String)) ≠ some [] := by
  refine ⟨rfl, rfl, ?_⟩
  simp

/-- ASCII lowercase letter (codepoints 97–122), the `a-z` of the sed class. -/
def isLowerAlpha (c : Char) : Bool := 97 ≤ c.toNat && c.toNat ≤ 122

/-- ASCII digit (codepoints 48–57), the `0-9` of the sed class. -/
def isDigitCh (c : Char) : Bool := 48 ≤ c.toNat && c.toNat ≤ 57

/-- ASCII uppercase letter (codepoints 65–90), the `[:upper:]` class of `tr`. -/
def isUpperAlpha (c : Char) : Bool := 65 ≤ c.toNat && c.toNat ≤ 90

/-- `tr '[:upper:]' '[:lower:]'`, one character: shift `A`–`Z` down by 32. -/
def lowerAscii (c : Char) : Char :=
  if isUpperAlpha c then Char.ofNat (c.toNat + 32) else c

/-- Membership in the sed character class `[a-z0-9]`. -/
def isAllowed (c : Char) : Bool := isLowerAlpha c || isDigitCh c

/-- One character of the hyphen-substitution sed step of `flake.nix`
(written there with slash delimiters; comma delimiters here): `s,[^a-z0-9],-,g`. -/
def hyphenate (c : Char) : Char := if isAllowed c then c else '-'

/-- The run-collapsing sed step `s,--*,-,g` of `flake.nix`:
every run of hyphens becomes a single hyphen. -/
def collapse : List Char → List Char
  | [] => []
  | [c] => [c]
  | a :: b :: rest =>
    if a = '-' ∧ b = '-' then collapse (b :: rest) else a :: collapse (b :: rest)

/-- Leading half of the trim step `s,^-\|-$,,g`: remove one leading hyphen. -/
def trimLead (l : List Char) : List Char :=
  match l with
  | [] => []
  | c :: rest => if c = '-' then rest else c :: rest

/-- Trailing half of the trim step `s,^-\|-$,,g`: remove one trailing hyphen. -/
def trimTrail : List Char → List Char
  | [] => []
  | [c] => if c = '-' then [] else [c]
  | c :: rest => c :: trimTrail rest

/-- The whole slug pipeline of the `blog new-post` script in `flake.nix`
(sed delimiters changed from slash to comma here):
`tr '[:upper:]' '[:lower:]'`, then `s,[^a-z0-9],-,g`, then `s,--*,-,g`,
then the one-leading/one-trailing hyphen trim `s,^-\|-$,,g` (after collapsing,
at most one leading and one trailing hyphen can remain, so removing one of
each is exactly the sed behaviour). -/
def slugChars (l : List Char) : List Char :=
  trimTrail (trimLead (collapse (l.map (fun c => hyphenate (lowerAscii c)))))

/-- Slug of a post title, per the `new-post` script. -/
def slugify (s : String) : String := String.mk (slugChars s.data)

/-- A character a normalized slug may contain: in `[a-z0-9]` or a hyphen. -/
def allowedOrDash (c : Char) : Prop := isAllowed c = true ∨ c = '-'

/-- No two adjacent hyphens. -/
def noDoubleDash (l : List Char) : Prop :=
  List.Chain' (fun a b => ¬(a = '-' ∧ b = '-')) l

/-- The first character, if any, is not a hyphen. -/
def headOk (l : List Char) : Prop := l.head? ≠ some '-'

/-- The last character, if any, is not a hyphen. -/
def lastOk : List Char → Prop
  | [] => True
  | [c] => c ≠ '-'
  | _ :: rest => lastOk rest

theorem allowedOrDash_hyphenate (c : Char) : allowedOrDash (hyphenate c) := by
  unfold hyphenate
  by_cases h : isAllowed c = true
  · rw [if_pos h]
    exact Or.inl h
  · rw [if_neg h]
    exact Or.inr rfl

theorem hyphenate_lowerAscii_eq_self {c : Char} (h : allowedOrDash c) :
    hyphenate (lowerAscii c) = c := by
  rcases h with h | rfl
  · have hup : ¬ (isUpperAlpha c = true) := by
      simp only [isAllowed, isLowerAlpha, isDigitCh, Bool.or_eq_true, Bool.and_eq_true,
        decide_eq_true_eq] at h
      simp only [isUpperAlpha, Bool.and_eq_true, decide_eq_true_eq, not_and]
      omega
    unfold lowerAscii
    rw [if_neg hup]
    unfold hyphenate
    rw [if_pos h]
  · decide

theorem collapse_head? (l : List Char) : (collapse l).head? = l.head? := by
  induction l with
  | nil => rfl
  | cons a tail ih =>
    cases tail with
    | nil => rfl
    | cons b rest =>
      by_cases h : a = '-' ∧ b = '-'
      · simp only [collapse, if_pos h]
        rw [ih]
        simp [h.1, h.2]
      · simp [collapse, if_neg h]

theorem noDoubleDash_collapse (l : List Char) : noDoubleDash (collapse l) := by
  induction l with
  | nil => exact List.chain'_nil
  | cons a tail ih =>
    cases tail with
    | nil => exact List.chain'_singleton a
    | cons b rest =>
      by_cases h : a = '-' ∧ b = '-'
      · simpa only [collapse, if_pos h] using ih
      · simp only [collapse, if_neg h]
        refine List.chain'_cons'.mpr ⟨?_, ih⟩
        intro y hy
        rw [collapse_head?] at hy
        simp only [List.head?_cons, Option.mem_def, Option.some.injEq] at hy
        subst hy
        exact h

theorem mem_collapse {c : Char} : ∀ {l : List Char}, c ∈ collapse l → c ∈ l := by
  intro l
  induction l with
  | nil => exact fun h => h
  | cons a tail ih =>
    cases tail with
    | nil => exact fun h => h
    | cons b rest =>
      intro h
      by_cases hd : a = '-' ∧ b = '-'
      · rw [collapse, if_pos hd] at h
        exact List.mem_cons_of_mem a (ih h)
      · rw [collapse, if_neg hd] at h
        rcases List.mem_cons.mp h with rfl | h
        · exact List.mem_cons_self _ _
        · exact List.mem_cons_of_mem a (ih h)

theorem collapse_eq_self : ∀ {l : List Char}, noDoubleDash l → collapse l = l := by
  intro l
  induction l with
  | nil => exact fun _ => rfl
  | cons a tail ih =>
    cases tail with
    | nil => exact fun _ => rfl
    | cons b rest =>
      intro h
      rcases List.chain'_cons.mp h with ⟨hab, htail⟩
      rw [collapse, if_neg hab, ih htail]

theorem headOk_trimLead {l : List Char} (h : noDoubleDash l) : headOk (trimLead l) := by
  cases l with
  | nil => simp [trimLead, headOk]
  | cons c rest =>
    by_cases hc : c = '-'
    · rw [trimLead, if_pos hc]
      cases rest with
      | nil => simp [headOk]
      | cons b rest' =>
        rcases List.chain'_cons.mp h with ⟨hab, _⟩
        subst hc
        simp only [headOk, List.head?_cons, ne_eq, Option.some.injEq]
        intro hb
        exact hab ⟨rfl, hb⟩
    · rw [trimLead, if_neg hc]
      simpa [headOk] using hc

theorem noDoubleDash_trimLead {l : List Char} (h : noDoubleDash l) :
    noDoubleDash (trimLead l) := by
  cases l with
  | nil => exact h
  | cons c rest =>
    by_cases hc : c = '-'
    · rw [trimLead, if_pos hc]
      exact h.tail
    · rwa [trimLead, if_neg hc]

theorem mem_trimLead {c : Char} {l : List Char} (h : c ∈ trimLead l) : c ∈ l := by
  cases l with
  | nil => exact h
  | cons a rest =>
    by_cases ha : a = '-'
    · rw [trimLead, if_pos ha] at h
      exact List.mem_cons_of_mem a h
    · rwa [trimLead, if_neg ha] at h

theorem trimLead_eq_self {l : List Char} (h : headOk l) : trimLead l = l := by
  cases l with
  | nil => rfl
  | cons a rest =>
    rw [trimLead, if_neg]
    intro ha
    subst ha
    exact h rfl

theorem trimTrail_head? (l : List Char) :
    (trimTrail l).head? = none ∨ (trimTrail l).head? = l.head? := by
  cases l with
  | nil => exact Or.inl rfl
  | cons a rest =>
    cases rest with
    | nil =>
      by_cases ha : a = '-'
      · rw [trimTrail, if_pos ha]
        exact Or.inl rfl
      · rw [trimTrail, if_neg ha]
        exact Or.inr rfl
    | cons b rest' => exact Or.inr rfl

theorem mem_trimTrail {c : Char} : ∀ {l : List Char}, c ∈ trimTrail l → c ∈ l := by
  intro l
  induction l with
  | nil => exact fun h => h
  | cons a rest ih =>
    cases rest with
    | nil =>
      intro h
      by_cases ha : a = '-'
      · rw [trimTrail, if_pos ha] at h
        exact absurd h (List.not_mem_nil c)
      · rwa [trimTrail, if_neg ha] at h
    | cons b rest' =>
      intro h
      rcases List.mem_cons.mp h with rfl | h
      · exact List.mem_cons_self _ _
      · exact List.mem_cons_of_mem a (ih h)

theorem noDoubleDash_trimTrail : ∀ {l : List Char}, noDoubleDash l →
    noDoubleDash (trimTrail l) := by
  intro l
  induction l with
  | nil => exact fun h => h
  | cons a rest ih =>
    cases rest with
    | nil =>
      intro _
      by_cases ha : a = '-'
      · rw [trimTrail, if_pos ha]
        exact List.chain'_nil
      · rw [trimTrail, if_neg ha]
        exact List.chain'_singleton a
    | cons b rest' =>
      intro h
      rcases List.chain'_cons.mp h with ⟨hab, htail⟩
      show noDoubleDash (a :: trimTrail (b :: rest'))
      refine List.chain'_cons'.mpr ⟨?_, ih htail⟩
      intro y hy
      rcases trimTrail_head? (b :: rest') with hh | hh
      · rw [hh] at hy
        exact absurd hy (by simp)
      · rw [hh] at hy
        simp only [List.head?_cons, Option.mem_def, Option.some.injEq] at hy
        subst hy
        exact hab

theorem headOk_trimTrail {l : List Char} (h : headOk l) : headOk (trimTrail l) := by
  rcases trimTrail_head? l with hh | hh
  · simp [headOk, hh]
  · simpa [headOk, hh] using h

theorem trimTrail_eq_nil_iff (l : List Char) :
    trimTrail l = [] ↔ l = [] ∨ l = ['-'] := by
  cases l with
  | nil => simp [trimTrail]
  | cons a rest =>
    cases rest with
    | nil =>
      by_cases ha : a = '-'
      · subst ha
        simp [trimTrail]
      · simp [trimTrail, if_neg ha, ha]
    | cons b rest' =>
      show a :: trimTrail (b :: rest') = [] ↔ _
      simp

theorem lastOk_cons_of_ne_nil {a : Char} {l : List Char} (h : l ≠ []) :
    lastOk (a :: l) ↔ lastOk l := by
  cases l with
  | nil => exact absurd rfl h
  | cons b rest => exact Iff.rfl

theorem lastOk_trimTrail : ∀ {l : List Char}, noDoubleDash l → lastOk (trimTrail l) := by
  intro l
  induction l with
  | nil => exact fun _ => trivial
  | cons a rest ih =>
    cases rest with
    | nil =>
      intro _
      by_cases ha : a = '-'
      · rw [trimTrail, if_pos ha]
        trivial
      · rw [trimTrail, if_neg ha]
        exact ha
    | cons b rest' =>
      intro h
      rcases List.chain'_cons.mp h with ⟨hab, htail⟩
      show lastOk (a :: trimTrail (b :: rest'))
      by_cases hnil : trimTrail (b :: rest') = []
      · rw [hnil]
        rcases (trimTrail_eq_nil_iff (b :: rest')).mp hnil with hb | hb
        · exact absurd hb (by simp)
        · have hb' : b = '-' := by
            have := List.cons.injEq b rest' '-' [] ▸ hb
            exact (List.cons.inj hb).1
          intro ha
          exact hab ⟨ha, hb'⟩
      · rw [lastOk_cons_of_ne_nil hnil]
        exact ih htail

theorem trimTrail_eq_self : ∀ {l : List Char}, lastOk l → trimTrail l = l := by
  intro l
  induction l with
  | nil => exact fun _ => rfl
  | cons a rest ih =>
    cases rest with
    | nil =>
      intro h
      rw [trimTrail, if_neg h]
    | cons b rest' =>
      intro h
      show a :: trimTrail (b :: rest') = _
      rw [ih ((lastOk_cons_of_ne_nil (by simp)).mp h)]

theorem mapStep_eq_self : ∀ {l : List Char}, (∀ c ∈ l, allowedOrDash c) →
    l.map (fun c => hyphenate (lowerAscii c)) = l := by
  intro l
  induction l with
  | nil => exact fun _ => rfl
  | cons a rest ih =>
    intro h
    simp only [List.map_cons]
    rw [hyphenate_lowerAscii_eq_self (h a (List.mem_cons_self a rest)),
      ih (fun c hc => h c (List.mem_cons_of_mem a hc))]

/-- Every character of a produced slug is in `[a-z0-9]` or a hyphen. -/
theorem slugChars_allowed {c : Char} {l : List Char} (h : c ∈ slugChars l) :
    allowedOrDash c := by
  unfold slugChars at h
  have h1 := mem_collapse (mem_trimLead (mem_trimTrail h))
  rcases List.mem_map.mp h1 with ⟨a, _, rfl⟩
  exact allowedOrDash_hyphenate (lowerAscii a)

/-- A produced slug is normalized: no double hyphen, no leading or trailing hyphen. -/
theorem slugChars_normalized (l : List Char) :
    noDoubleDash (slugChars l) ∧ headOk (slugChars l) ∧ lastOk (slugChars l) := by
  unfold slugChars
  refine ⟨?_, ?_, ?_⟩
  · exact noDoubleDash_trimTrail (noDoubleDash_trimLead (noDoubleDash_collapse _))
  · exact headOk_trimTrail (headOk_trimLead (noDoubleDash_collapse _))
  · exact lastOk_trimTrail (noDoubleDash_trimLead (noDoubleDash_collapse _))

/-- Normalizing an already-normalized character list changes nothing. -/
theorem slugChars_eq_self {l : List Char} (hall : ∀ c ∈ l, allowedOrDash c)
    (hnd : noDoubleDash l) (hh : headOk l) (hl : lastOk l) : slugChars l = l := by
  unfold slugChars
  rw [mapStep_eq_self hall, collapse_eq_self hnd, trimLead_eq_self hh,
    trimTrail_eq_self hl]

/-- The slug pipeline is idempotent. -/
theorem slugify_idem (s : String) : slugify (slugify s) = slugify s := by
  show String.mk (slugChars (slugChars s.data)) = String.mk (slugChars s.data)
  rcases slugChars_normalized s.data with ⟨hnd, hh, hl⟩
  rw [slugChars_eq_self (fun c hc => slugChars_allowed hc) hnd hh hl]

/-- Modelled from the spec: the Content Loader's slug derivation is framework
code not present in the repository; per the spec it is "filename without
extension, lowercased, with disallowed characters normalized to a separator
..., collapsing repeated separators and trimming leading/trailing separators"
— i.e. the same normalization the repository's own `new-post` slug pipeline
implements. `dropExt` removes the extension (from the last dot on). -/
def dropExt (f : String) : String :=
  if '.' ∈ f.data then
    String.mk (((f.data.reverse.dropWhile (fun c => c ≠ '.')).drop 1).reverse)
  else f

/-- Modelled from the spec: the slug embedded in an entry's route path, derived
from its filename (see `dropExt`). -/
def slugOfFile (f : String) : String := slugify (dropExt f)

/-- The filename the `new-post` script writes for a given title:
`src/content/blog/$slug.md`, here just the basename `$slug.md`. -/
def fileOfTitle (t : String) : String := slugify t ++ ".md"

theorem dropExt_append_md (s : String) :
    dropExt (s ++ ".md") = s := by
  have hdata : (s ++ ".md").data = s.data ++ ['.', 'm', 'd'] := String.data_append s (".md")
  have hrev : (s.data ++ ['.', 'm', 'd']).reverse = 'd' :: 'm' :: '.' :: s.data.reverse := by
    simp
  have hdw : ('d' :: 'm' :: '.' :: s.data.reverse).dropWhile (fun c => c ≠ '.') =
      '.' :: s.data.reverse := by
    rw [List.dropWhile_cons, if_pos (by decide), List.dropWhile_cons, if_pos (by decide),
      List.dropWhile_cons, if_neg (by decide)]
  unfold dropExt
  rw [if_pos (hdata ▸ List.mem_append_right _ (by decide))]
  rw [hdata, hrev, hdw]
  simp only [List.drop_succ_cons, List.drop_zero, List.reverse_reverse]

/-- Claim C6: the derived slug of a filename is the filename without extension
run through the documented normalization (lowercase, disallowed characters to
hyphens, runs collapsed, leading/trailing hyphens trimmed); and the round-trip
holds — for a file created from a title by the `new-post` script, the slug
embedded in the route path equals the slug the script derived from the title
(normalization is idempotent on its own output). -/
theorem slug_filename_roundtrip :
    (∀ f, slugOfFile f = slugify (dropExt f)) ∧
    (∀ t, slugOfFile (fileOfTitle t) = slugify t) := by
  refine ⟨fun f => rfl, fun t => ?_⟩
  unfold slugOfFile fileOfTitle
  rw [dropExt_append_md _, slugify_idem]

/-- Lookup of a file's content in a file system modelled as an association
list (creation order preserved). -/
def fsRead : List (String × String) → String → Option String
  | [], _ => none
  | kv :: rest, p => if kv.1 = p then some kv.2 else fsRead rest p

/-- Whether a path exists in the file system. -/
def fsHas : List (String × String) → String → Bool
  | [], _ => false
  | kv :: rest, p => kv.1 = p || fsHas rest p

/-- `cat > "$file"`: create the file, or truncate and overwrite it when the
path already exists — never an error. -/
def fsWrite (fs : List (String × String)) (p c : String) : List (String × String) :=
  if fsHas fs p then fs.map (fun kv => if kv.1 = p then (p, c) else kv)
  else fs ++ [(p, c)]

/-- The path the `new-post` script writes: `src/content/blog/$slug.md`. -/
def postPath (t : String) : String := "src/content/blog/" ++ slugify t ++ ".md"

/-- The frontmatter template the `new-post` script writes for a title and date. -/
def newPostContent (title date : String) : String :=
  "---\ntitle: \x27" ++ title ++ "\x27\ndescription: \x27Description for " ++ title ++
    "\x27\npubDate: " ++ date ++ "\n---\n\n# " ++ title ++ "\n\nYour content here...\n"

/-- `blog new-post 'Title'` of `flake.nix`: derive the slug from the title and
write the template to `src/content/blog/$slug.md`. -/
def newPost (fs : List (String × String)) (title date : String) :
    List (String × String) :=
  fsWrite fs (postPath title) (newPostContent title date)

theorem fsRead_append_single (p c : String) :
    ∀ fs : List (String × String), fsHas fs p = false → fsRead (fs ++ [(p, c)]) p = some c := by
  intro fs
  induction fs with
  | nil =>
    intro _
    simp [fsRead]
  | cons kv rest ih =>
    intro h
    rw [fsHas, Bool.or_eq_false_iff] at h
    rw [List.cons_append, fsRead, if_neg (by simpa using h.1)]
    exact ih h.2

theorem fsRead_map_overwrite (p c : String) :
    ∀ fs : List (String × String), fsHas fs p = true →
      fsRead (fs.map (fun kv => if kv.1 = p then (p, c) else kv)) p = some c := by
  intro fs
  induction fs with
  | nil =>
    intro h
    simp [fsHas] at h
  | cons kv rest ih =>
    intro h
    by_cases hk : kv.1 = p
    · simp only [List.map_cons, if_pos hk]
      rw [fsRead, if_pos rfl]
    · have hrest : fsHas rest p = true := by
        rw [fsHas, Bool.or_eq_true] at h
        rcases h with h | h
        · exact absurd (by simpa using h) hk
        · exact h
      simp only [List.map_cons, if_neg hk]
      rw [fsRead, if_neg hk]
      exact ih hrest

/-- Writing a path then reading it back yields exactly the written content. -/
theorem fsRead_write_self (fs : List (String × String)) (p c : String) :
    fsRead (fsWrite fs p c) p = some c := by
  unfold fsWrite
  by_cases h : fsHas fs p = true
  · rw [if_pos h]
    exact fsRead_map_overwrite p c fs h
  · rw [if_neg h]
    exact fsRead_append_single p c fs (Bool.not_eq_true _ ▸ h)

theorem fsHas_append_single (p c : String) :
    ∀ fs : List (String × String), fsHas (fs ++ [(p, c)]) p = true := by
  intro fs
  induction fs with
  | nil => simp [fsHas]
  | cons kv rest ih =>
    rw [List.cons_append, fsHas, ih, Bool.or_true]

theorem fsHas_map_overwrite (p c : String) :
    ∀ fs : List (String × String), fsHas fs p = true →
      fsHas (fs.map (fun kv => if kv.1 = p then (p, c) else kv)) p = true := by
  intro fs
  induction fs with
  | nil =>
    intro h
    simp [fsHas] at h
  | cons kv rest ih =>
    intro h
    by_cases hk : kv.1 = p
    · simp only [List.map_cons, if_pos hk]
      simp [fsHas]
    · have hrest : fsHas rest p = true := by
        rw [fsHas, Bool.or_eq_true] at h
        rcases h with h | h
        · exact absurd (by simpa using h) hk
        · exact h
      simp only [List.map_cons, if_neg hk]
      rw [fsHas, ih hrest, Bool.or_true]

/-- After a write the path exists. -/
theorem fsHas_write_self (fs : List (String × String)) (p c : String) :
    fsHas (fsWrite fs p c) p = true := by
  unfold fsWrite
  by_cases h : fsHas fs p = true
  · rw [if_pos h]
    exact fsHas_map_overwrite p c fs h
  · rw [if_neg h]
    exact fsHas_append_single p c fs

/-- Overwriting an existing path does not change the number of files. -/
theorem fsWrite_length_of_has (fs : List (String × String)) (p c : String)
    (h : fsHas fs p = true) : (fsWrite fs p c).length = fs.length := by
  unfold fsWrite
  rw [if_pos h, List.length_map]

/-- Claim C4 (counterexample): the titles "Hello World" and "Hello, World!"
normalize to the same slug `hello-world`; creating the second post silently
overwrites the first — the file system ends with ONE file holding the second
post's content, the first content (which differs) is lost, and no error of any
kind (in particular no `SlugCollisionError`) occurs: the write operation has no
error outcome at all. -/
theorem slug_collision_claim_false :
    slugify ("Hello World") = "hello-world" ∧
    slugify ("Hello, World!") = "hello-world" ∧
    newPost (newPost [] ("Hello World") ("2025-01-01")) ("Hello, World!") ("2025-01-02") =
      [(postPath ("Hello World"), newPostContent ("Hello, World!") ("2025-01-02"))] ∧
    newPostContent ("Hello World") ("2025-01-01") ≠
      newPostContent ("Hello, World!") ("2025-01-02") := by
  refine ⟨by decide, by decide, by decide, by decide⟩

/-- Claim C4 (amended): when a second title normalizes to the same slug as an
already-created post, the `new-post` script writes to the identical path and
silently overwrites the existing file: the file count does not grow, the path's
content becomes the second post's template, and no error is raised (the script
has no failure path for collisions). -/
theorem slug_collision_overwrites (fs : List (String × String))
    (t₁ t₂ d₁ d₂ : String) (hcol : slugify t₁ = slugify t₂) :
    postPath t₂ = postPath t₁ ∧
    (newPost (newPost fs t₁ d₁) t₂ d₂).length = (newPost fs t₁ d₁).length ∧
    fsRead (newPost (newPost fs t₁ d₁) t₂ d₂) (postPath t₁) =
      some (newPostContent t₂ d₂) := by
  have hp : postPath t₂ = postPath t₁ := by
    unfold postPath
    rw [hcol]
  refine ⟨hp, ?_, ?_⟩
  · show (fsWrite (newPost fs t₁ d₁) (postPath t₂) (newPostContent t₂ d₂)).length = _
    rw [hp]
    exact fsWrite_length_of_has _ _ _ (fsHas_write_self fs (postPath t₁) _)
  · show fsRead (fsWrite (newPost fs t₁ d₁) (postPath t₂) (newPostContent t₂ d₂)) _ = _
    rw [hp]
    exact fsRead_write_self _ _ _

/-- Witness for `slug_collision_overwrites` at a concrete colliding pair. -/
theorem slug_collision_overwrites_witness :
    postPath ("Hello, World!") = postPath ("Hello World") ∧
    (newPost (newPost [] ("Hello World") ("2025-01-01")) ("Hello, World!")
        ("2025-01-02")).length =
      (newPost [] ("Hello World") ("2025-01-01")).length ∧
    fsRead (newPost (newPost [] ("Hello World") ("2025-01-01")) ("Hello, World!")
        ("2025-01-02")) (postPath ("Hello World")) =
      some (newPostContent ("Hello, World!") ("2025-01-02")) :=
  slug_collision_overwrites [] ("Hello World") ("Hello, World!") ("2025-01-01")
    ("2025-01-02") (by decide)

/-- One discovered source file: basename, parsed frontmatter, markdown body. -/
structure SourceFile where
  name : String
  fm : Frontmatter
  body : String

/-- Filename order used by deterministic discovery. -/
def fileLe (a b : SourceFile) : Prop := a.name ≤ b.name

instance : DecidableRel fileLe := fun a b =>
  inferInstanceAs (Decidable (a.name ≤ b.name))

instance : IsTotal SourceFile fileLe := ⟨fun a b => le_total a.name b.name⟩

instance : IsTrans SourceFile fileLe := ⟨fun _ _ _ h₁ h₂ => le_trans h₁ h₂⟩

/-- Modelled from the spec: the Content Loader (framework code not in the
repository) "discovers entries on disk" as part of "a deterministic, offline,
single-pass transform"; discovery therefore enumerates the input files in
filename order, independent of the order the directory listing yields them. -/
def discover (files : List SourceFile) : List SourceFile :=
  files.insertionSort fileLe

/-- The validation failures of a list of files: each failing file's name paired
with its offending field names. -/
def buildErrors (fs : List SourceFile) : List (String × List String) :=
  fs.filterMap fun f =>
    match validateBlog f.fm with
    | Except.ok _ => none
    | Except.error es => some (f.name, es)

/-- Modelled from the spec: the build driver around the repository's schema
(framework code not in the repository) — "a build fails fast if any entry fails
validation", "fatal to the whole build (fail fast, no partial site)", failures
carry "file path, field name". Every file is validated; on any failure the
whole build yields only the errors, otherwise the validated entries (slug
derived from the filename). -/
def entriesOf (fs : List SourceFile) :
    Except (List (String × List String)) (List Entry) :=
  if (buildErrors fs).isEmpty then
    Except.ok (fs.filterMap fun f =>
      match validateBlog f.fm with
      | Except.ok d => some ⟨slugOfFile f.name, d, f.body⟩
      | Except.error _ => none)
  else Except.error (buildErrors fs)

/-- Load and validate the collection from discovered files. -/
def buildEntries (files : List SourceFile) :
    Except (List (String × List String)) (List Entry) :=
  entriesOf (discover files)

/-- The static output tree: home page, listing page, one detail page per entry. -/
def sitePages (entries : List Entry) : List (String × String) :=
  ("index.html", homePage entries) ::
  ("blog/index.html", blogIndexPage entries) ::
  entries.map fun e => ("blog/" ++ e.slug ++ "/index.html", detailPage e)

/-- The whole build: discovery, validation, rendering. -/
def buildSite (files : List SourceFile) :
    Except (List (String × List String)) (List (String × String)) :=
  (buildEntries files).map sitePages

theorem validateBlog_error_of_pubDate_none {fm : Frontmatter}
    (hp : fm.pubDate = none) :
    validateBlog fm = Except.error (fieldErrors fm) := by
  rcases h1 : checkStr fm.title with _ | t <;>
  rcases h2 : checkStr fm.description with _ | de <;>
  rcases h4 : checkOptDate fm.updatedDate with _ | u <;>
  rcases h5 : checkOptStr fm.heroImage with _ | hi <;>
  rcases h6 : checkOptTags fm.tags with _ | tg <;>
    simp [validateBlog, h1, h2, h4, h5, h6, hp, checkDate]

theorem pubDate_mem_fieldErrors {fm : Frontmatter} (hp : fm.pubDate = none) :
    "pubDate" ∈ fieldErrors fm := by
  unfold fieldErrors
  refine List.mem_append_left _ (List.mem_append_left _
    (List.mem_append_left _ (List.mem_append_right _ ?_)))
  simp [hp, checkDate]

/-- Claim C5: an input set containing a file whose frontmatter is missing
`pubDate` makes the whole build fail: the result is an error naming that file
and the field `pubDate`, and no site output exists for ANY entry of the input
set (fail fast, no partial site). -/
theorem missing_pubDate_fails_build (files : List SourceFile) (f : SourceFile)
    (hf : f ∈ files) (hp : f.fm.pubDate = none) :
    ∃ errs, buildSite files = Except.error errs ∧
      (∃ es, (f.name, es) ∈ errs ∧ "pubDate" ∈ es) ∧
      ∀ site, buildSite files ≠ Except.ok site := by
  have hval : validateBlog f.fm = Except.error (fieldErrors f.fm) :=
    validateBlog_error_of_pubDate_none hp
  have hmem : (f.name, fieldErrors f.fm) ∈ buildErrors (discover files) := by
    refine List.mem_filterMap.mpr ⟨f, ?_, ?_⟩
    · exact (List.mem_insertionSort fileLe).mpr hf
    · rw [hval]
  have hne : ¬ ((buildErrors (discover files)).isEmpty = true) := by
    cases hbe : buildErrors (discover files) with
    | nil =>
      rw [hbe] at hmem
      exact absurd hmem (List.not_mem_nil _)
    | cons x xs => simp
  have hbuild : buildSite files = Except.error (buildErrors (discover files)) := by
    unfold buildSite buildEntries entriesOf
    rw [if_neg hne]
    rfl
  refine ⟨buildErrors (discover files), hbuild,
    ⟨fieldErrors f.fm, hmem, pubDate_mem_fieldErrors hp⟩, ?_⟩
  intro site hsite
  rw [hbuild] at hsite
  exact Except.noConfusion hsite

/-- A concrete file whose frontmatter is missing `pubDate`. -/
def fNoPub : SourceFile :=
  ⟨"no-pub.md",
   { title := some (FVal.str ("T")), description := some (FVal.str ("D")) },
   "body"⟩

/-- Witness for `missing_pubDate_fails_build` on a concrete one-file input. -/
theorem missing_pubDate_fails_build_witness :
    ∃ errs, buildSite [fNoPub] = Except.error errs ∧
      (∃ es, (fNoPub.name, es) ∈ errs ∧ "pubDate" ∈ es) ∧
      ∀ site, buildSite [fNoPub] ≠ Except.ok site :=
  missing_pubDate_fails_build [fNoPub] fNoPub (List.mem_singleton_self _) rfl

theorem discover_eq_of_perm (l₁ l₂ : List SourceFile) (hperm : l₁.Perm l₂)
    (hnd : (l₁.map SourceFile.name).Nodup) : discover l₁ = discover l₂ := by
  have hnd₂ : (l₂.map SourceFile.name).Nodup :=
    ((hperm.map SourceFile.name).nodup_iff).mp hnd
  have hne₁ : (discover l₁).Pairwise (fun a b : SourceFile => a.name ≠ b.name) :=
    ((List.perm_insertionSort fileLe l₁).pairwise_iff (fun h => h.symm)).mpr
      (List.pairwise_map.mp hnd)
  have hne₂ : (discover l₂).Pairwise (fun a b : SourceFile => a.name ≠ b.name) :=
    ((List.perm_insertionSort fileLe l₂).pairwise_iff (fun h => h.symm)).mpr
      (List.pairwise_map.mp hnd₂)
  have hlt₁ : (discover l₁).Pairwise (fun a b : SourceFile => a.name < b.name) :=
    ((List.sorted_insertionSort fileLe l₁).and hne₁).imp
      (fun h => lt_of_le_of_ne h.1 h.2)
  have hlt₂ : (discover l₂).Pairwise (fun a b : SourceFile => a.name < b.name) :=
    ((List.sorted_insertionSort fileLe l₂).and hne₂).imp
      (fun h => lt_of_le_of_ne h.1 h.2)
  haveI : IsAntisymm SourceFile (fun a b : SourceFile => a.name < b.name) :=
    ⟨fun _ _ h₁ h₂ => absurd h₂ (lt_asymm h₁)⟩
  have hperm' : (discover l₁).Perm (discover l₂) :=
    (List.perm_insertionSort fileLe l₁).trans
      (hperm.trans (List.perm_insertionSort fileLe l₂).symm)
  exact List.eq_of_perm_of_sorted hperm' hlt₁ hlt₂

/-- Claim C9: the build is deterministic and idempotent — two runs over the
same input set (the same files, in whatever order the file system enumerates
them) produce byte-identical output: the build is a pure function of the input
set, invariant under the enumeration order. -/
theorem build_deterministic (l₁ l₂ : List SourceFile) (hperm : l₁.Perm l₂)
    (hnd : (l₁.map SourceFile.name).Nodup) : buildSite l₁ = buildSite l₂ := by
  unfold buildSite buildEntries
  rw [discover_eq_of_perm l₁ l₂ hperm hnd]

/-- A concrete valid source file (`a-post.md`). -/
def fPostA : SourceFile :=
  ⟨"a-post.md",
   { title := some (FVal.str ("A")), description := some (FVal.str ("da")),
     pubDate := some (FVal.date ⟨2025, 1, 2⟩) },
   "ba"⟩

/-- A concrete valid source file (`b-post.md`). -/
def fPostB : SourceFile :=
  ⟨"b-post.md",
   { title := some (FVal.str ("B")), description := some (FVal.str ("db")),
     pubDate := some (FVal.date ⟨2025, 1, 3⟩) },
   "bb"⟩

/-- Witness for `build_deterministic`: the two enumeration orders of a concrete
two-file input build to identical output. -/
theorem build_deterministic_witness :
    buildSite [fPostA, fPostB] = buildSite [fPostB, fPostA] :=
  build_deterministic [fPostA, fPostB] [fPostB, fPostA]
    (List.Perm.swap fPostB fPostA []) (by decide)
